import Mathlib

/-!
Verification of the shopping-feed attribute scraper (src/app.py).

The development shallowly embeds the core of the program:
* Python dicts that hold per-item attributes become association lists
  (`Bag`) with insert-or-replace-in-place semantics, which matches the
  insertion-order-preserving behaviour of Python dicts.
* Python `re.search` becomes a small backtracking engine (`mrun` /
  `reSearch`) over an explicit regex AST.  The engine implements the
  semantics that the source relies on: leftmost search, ordered
  alternation, greedy and lazy repetition, numbered capture groups with
  latest-capture-wins, word boundaries, the caret and dollar anchors and
  case-insensitive matching (every search in the source either passes
  `re.IGNORECASE` or runs a lowercase literal over lowercased text, so
  all literals below are matched case-insensitively).
* The network and the HTML parser are modelled at their boundary: a
  fetched page is its rendered text (`soup.get_text()`) plus the list of
  tables, where a table is a list of rows and a row the list of its cell
  texts (`get_text().strip()` is applied where the source applies it).
* A hypothetical exception raised inside the extraction block of
  `scrape_product_attributes` is modelled by an optional fault point
  `(j, msg)`: the exception fires after the first `j` extraction steps,
  which reproduces the `try`/`except` control flow of the source where
  dict mutations made before the exception survive.
-/

/-- Python truthiness-aware whitespace test: the characters stripped by
`str.strip()` and matched by the regex class backslash-s (ASCII range). -/
def isPySpace (c : Char) : Bool :=
  c = ' ' || c = '\t' || c = '\n' || c = '\r' || c = Char.ofNat 11 || c = Char.ofNat 12

/-- Embedding of Python `str.strip()`. -/
def pyStrip (s : String) : String :=
  String.mk (((s.data.dropWhile isPySpace).reverse.dropWhile isPySpace).reverse)

/-- Embedding of Python `str.lower()` (ASCII case folding). -/
def lowerStr (s : String) : String :=
  String.mk (s.data.map Char.toLower)

/-- Embedding of Python `str.capitalize()`: first character upper-cased,
the rest lower-cased. -/
def pyCapitalize (s : String) : String :=
  match s.data with
  | [] => ""
  | c :: cs => String.mk (c.toUpper :: cs.map Char.toLower)

/-- Tests whether `needle` starts the list `hay`. -/
def leadsWith : List Char → List Char → Bool
  | [], _ => true
  | _ :: _, [] => false
  | a :: as, b :: bs => a = b && leadsWith as bs

/-- Tests whether `needle` occurs somewhere in `hay`. -/
def occursIn (needle : List Char) : List Char → Bool
  | [] => leadsWith needle []
  | c :: t => leadsWith needle (c :: t) || occursIn needle t

/-- Embedding of Python `needle in hay` on strings. -/
def strContains (hay needle : String) : Bool :=
  occursIn needle.data hay.data

/-- Embedding of Python `s.startswith(pre)`. -/
def strStartsWith (s pre : String) : Bool :=
  leadsWith pre.data s.data

/-- Python slice `s[lo:hi]` on non-negative clamped indices. -/
def pySlice (s : String) (lo hi : Nat) : String :=
  String.mk ((s.data.drop lo).take (hi - lo))

/-! ## Bags: Python dicts holding string keys and values -/

/-- An attribute bag: a Python dict from string keys to string values,
modelled as an association list in insertion order with no duplicate
keys ever created by `bagInsert`. -/
abbrev Bag := List (String × String)

/-- Embedding of Python dict lookup `b[k]` / `b.get(k)`. -/
def bagGet : Bag → String → Option String
  | [], _ => none
  | (k0, v0) :: rest, k => if k0 = k then some v0 else bagGet rest k

/-- Embedding of Python dict assignment `b[k] = v`: replaces the value in
place when the key exists, appends otherwise. -/
def bagInsert : Bag → String → String → Bag
  | [], k, v => [(k, v)]
  | (k0, v0) :: rest, k, v =>
    if k0 = k then (k0, v) :: rest else (k0, v0) :: bagInsert rest k v

/-- Keys of a bag in insertion order. -/
def bagKeys (b : Bag) : List String := b.map (·.1)

/-- Embedding of Python `b.update(ps)` (also the body of a loop of
assignments): inserts every pair of `ps` in order. -/
def bagInsertAll (b : Bag) (ps : List (String × String)) : Bag :=
  ps.foldl (fun acc p => bagInsert acc p.1 p.2) b

/-! ## A backtracking regex engine

The AST mirrors the constructs used by the patterns in the source:
character classes (a class is its membership predicate), sequencing,
ordered alternation, greedy/lazy star and option, numbered groups, word
boundary, caret and dollar. -/

inductive RE where
  | eps
  | cls (f : Char → Bool)
  | seq (a b : RE)
  | alt (a b : RE)
  | star (lazy : Bool) (a : RE)
  | opt (lazy : Bool) (a : RE)
  | grp (i : Nat) (a : RE)
  | wordB
  | bos
  | eos

/-- A word character in the sense of the regex metachar backslash-w
restricted to ASCII, which is all the source's inputs use. -/
def isWordChar (c : Char) : Bool := c.isAlpha || c.isDigit || c = '_'

/-- Whether position `i` of the input holds a word character. -/
def wordAt (input : List Char) (i : Nat) : Bool :=
  match input.get? i with
  | some c => isWordChar c
  | none => false

/-- Word-boundary test at `pos`, as for the regex backslash-b. -/
def wordBoundary (input : List Char) (pos : Nat) : Bool :=
  if pos = 0 then wordAt input 0
  else wordAt input (pos - 1) != wordAt input pos

/-- Dollar-anchor test: end of input, or just before a final newline. -/
def atEos (input : List Char) (pos : Nat) : Bool :=
  pos = input.length ||
    (pos + 1 = input.length && input.get? pos == some '\n')

/-- Capture list: entries `(index, start, stop)`, most recent first. -/
abbrev Caps := List (Nat × Nat × Nat)

/-- Core matcher in continuation-passing style.  `input` is the whole
input (for boundary tests), `rest` the suffix at `pos`.  The fuel only
bounds recursion depth; it is chosen large enough (`fuelFor`) that no
search in this development ever exhausts it. -/
def mrun : Nat → RE → List Char → List Char → Nat → Caps →
    (List Char → Nat → Caps → Option (Nat × Caps)) → Option (Nat × Caps)
  | 0, _, _, _, _, _, _ => none
  | Nat.succ fuel, re, input, rest, pos, caps, k =>
    match re with
    | .eps => k rest pos caps
    | .cls f =>
      match rest with
      | [] => none
      | c :: cs => if f c then k cs (pos + 1) caps else none
    | .seq a b =>
      mrun fuel a input rest pos caps (fun r p g => mrun fuel b input r p g k)
    | .alt a b =>
      match mrun fuel a input rest pos caps k with
      | some res => some res
      | none => mrun fuel b input rest pos caps k
    | .opt lz a =>
      if lz then
        match k rest pos caps with
        | some res => some res
        | none => mrun fuel a input rest pos caps k
      else
        match mrun fuel a input rest pos caps k with
        | some res => some res
        | none => k rest pos caps
    | .star lz a =>
      if lz then
        match k rest pos caps with
        | some res => some res
        | none =>
          mrun fuel a input rest pos caps
            (fun r p g => if pos < p then mrun fuel (.star lz a) input r p g k else none)
      else
        match mrun fuel a input rest pos caps
            (fun r p g => if pos < p then mrun fuel (.star lz a) input r p g k else none) with
        | some res => some res
        | none => k rest pos caps
    | .grp i a =>
      mrun fuel a input rest pos caps (fun r p g => k r p ((i, pos, p) :: g))
    | .wordB => if wordBoundary input pos then k rest pos caps else none
    | .bos => if pos = 0 then k rest pos caps else none
    | .eos => if atEos input pos then k rest pos caps else none

/-- Fuel budget: generous linear bound in the input length. -/
def fuelFor (input : List Char) : Nat := 8 * input.length + 400

/-- The result of a successful search: the span of group 0 and the
captures of the numbered groups. -/
structure RMatch where
  start : Nat
  stop : Nat
  caps : Caps
deriving Repr, DecidableEq

/-- Leftmost search: attempts a match at each start position in turn,
as Python `re.search` does. -/
def searchLoop (re : RE) (input : List Char) : List Char → Nat → Option RMatch
  | rest, pos =>
    match mrun (fuelFor input) re input rest pos [] (fun _ p g => some (p, g)) with
    | some (p, g) => some ⟨pos, p, g⟩
    | none =>
      match rest with
      | [] => none
      | _ :: rs => searchLoop re input rs (pos + 1)

/-- Embedding of `re.search(pattern, s)`. -/
def reSearch (re : RE) (s : String) : Option RMatch :=
  searchLoop re s.data s.data 0

/-- Span of group `i` of a match (`i = 0` is the whole match); Python's
rule that the most recent capture of a group wins is realised by the
capture list keeping the most recent entry first. -/
def groupSpan (m : RMatch) (i : Nat) : Option (Nat × Nat) :=
  if i = 0 then some (m.start, m.stop)
  else (m.caps.find? (fun t => t.1 = i)).map (fun t => (t.2.1, t.2.2))

/-- Embedding of `match.group(i)` (against the searched string). -/
def mGroup (s : String) (m : RMatch) (i : Nat) : Option String :=
  (groupSpan m i).map (fun p => pySlice s p.1 p.2)

/-- Embedding of `match.groups()` for a pattern with `n` groups: the
optional capture of each group `1..n` in order. -/
def mGroups (s : String) (m : RMatch) (n : Nat) : List (Option String) :=
  (List.range n).map (fun j => mGroup s m (j + 1))

/-! ## Regex construction helpers -/

/-- Case-insensitive single character (ASCII folding), the default for
every literal in this development (see the header note). -/
def chC (c : Char) : RE := .cls (fun x => x.toLower = c.toLower)

/-- Case-insensitive literal string. -/
def strC (s : String) : RE := s.data.foldr (fun c r => .seq (chC c) r) .eps

/-- Sequencing of a list of regexes. -/
def rseq (l : List RE) : RE := l.foldr .seq .eps

/-- Ordered alternation of a list of regexes (first alternative wins). -/
def alts : List RE → RE
  | [] => .eps
  | [r] => r
  | r :: rs => .alt r (alts rs)

/-- Greedy option. -/
def ropt (r : RE) : RE := .opt false r

/-- Greedy `+`. -/
def rplus (r : RE) : RE := .seq r (.star false r)

/-- The apostrophe character (appears in the imperial dimension units). -/
def apos : Char := Char.ofNat 39

/-- Digit class, backslash-d. -/
def digitC : RE := .cls Char.isDigit

/-- Whitespace class, backslash-s. -/
def spaceC : RE := .cls isPySpace

/-- Greedy `\s*`. -/
def sstar : RE := .star false spaceC

/-- Greedy `\s+`. -/
def splus : RE := rplus spaceC

/-- ASCII letter class: `[A-Za-z]`, and also `[a-z]` under IGNORECASE. -/
def alphaC : RE := .cls Char.isAlpha

/-- Numeric literal `\d+(?:\.\d+)?`. -/
def numRe : RE := rseq [rplus digitC, ropt (rseq [chC '.', rplus digitC])]

/-- Lazy `.*?` (dot excludes newline; DOTALL is not set anywhere). -/
def lazyDotStar : RE := .star true (.cls (fun c => c ≠ '\n'))

/-- Whole-word search regex for a literal word `w`, embedding the
f-string patterns of the source that wrap a vocabulary entry in a pair
of word boundaries. -/
def wordRe (w : String) : RE := rseq [.wordB, strC w, .wordB]

/-! ## Attribute extractor: dimensions (src/app.py lines 135-169) -/

/-- Metric unit alternation `(?:cm|mm|m)`. -/
def metricU : RE := alts [strC "cm", strC "mm", strC "m"]

/-- Unit alternation `(?:cm|mm|m|inches?|ft)`. -/
def unitsWithInch : RE :=
  alts [strC "cm", strC "mm", strC "m", rseq [strC "inche", ropt (chC 's')], strC "ft"]

/-- Dimension pattern 1: labelled metric triplet. -/
def dimP1 : RE :=
  rseq [.grp 1 numRe, sstar, metricU, sstar, strC "(l)", sstar, chC 'x', sstar,
        .grp 2 numRe, sstar, metricU, sstar, strC "(w)", sstar, chC 'x', sstar,
        .grp 3 numRe, sstar, metricU, sstar, strC "(h)"]

/-- Dimension pattern 2: bare metric multiplication expression. -/
def dimP2 : RE :=
  rseq [.grp 1 numRe, sstar, chC 'x', sstar, .grp 2 numRe, sstar,
        ropt (rseq [chC 'x', sstar, .grp 3 numRe]), sstar, metricU, .wordB]

/-- Dimension pattern 3: imperial multiplication expression. -/
def dimP3 : RE :=
  rseq [.grp 1 numRe, sstar,
        alts [chC '"', chC apos, strC "inch", strC "inches", strC "in"],
        sstar, chC 'x', sstar, .grp 2 numRe, sstar,
        alts [strC "ft", strC "feet", chC apos]]

/-- Class `[xX√ó]` (the source contains the mojibake of a multiplication
sign as the two literal characters of that class). -/
def xCls : RE := .cls (fun c => c.toLower = 'x' || c = '√' || c = 'ó')

/-- Dimension pattern 4: multiplication with the alternate glyph class. -/
def dimP4 : RE :=
  rseq [.grp 1 numRe, sstar, xCls, sstar, .grp 2 numRe, sstar,
        ropt (rseq [xCls, sstar, .grp 3 numRe]), sstar, unitsWithInch, .wordB]

/-- Alternation `(?:x|√ó)`. -/
def xAlt : RE := alts [chC 'x', strC "√ó"]

/-- Dimension pattern 5: Dimensions/Size/Measurements label. -/
def dimP5 : RE :=
  rseq [alts [rseq [strC "dimension", ropt (chC 's')], strC "size",
              rseq [strC "measurement", ropt (chC 's')]],
        chC ':', sstar, .grp 1 numRe, sstar, xAlt, sstar, .grp 2 numRe, sstar,
        ropt (rseq [xAlt, sstar, .grp 3 numRe]), sstar, ropt unitsWithInch]

/-- Dimension pattern 6: Table/Product/Paper size label. -/
def dimP6 : RE :=
  rseq [alts [strC "table size", strC "product size", strC "paper size"],
        chC ':', sstar, .grp 1 numRe, sstar, metricU, sstar, ropt (strC "(l)"),
        sstar, chC 'x', sstar, .grp 2 numRe, sstar, metricU]

/-- Unit-or-inch-mark alternation for the W/H/D pattern. -/
def unitOrQuote : RE := alts [strC "cm", strC "mm", strC "m", chC '"']

/-- Dimension pattern 7: separately labelled Width/Height/Depth triplet. -/
def dimP7 : RE :=
  rseq [alts [strC "width", chC 'w'], chC ':', sstar, .grp 1 numRe, sstar, unitOrQuote,
        lazyDotStar, alts [strC "height", chC 'h'], chC ':', sstar, .grp 2 numRe, sstar, unitOrQuote,
        lazyDotStar, alts [strC "depth", chC 'd'], chC ':', sstar, .grp 3 numRe, sstar, unitOrQuote]

/-- Dimension pattern 8: single bound dimension with descriptive word. -/
def dimP8 : RE :=
  rseq [.grp 1 numRe, sstar, metricU, sstar,
        alts [strC "wide", strC "width", strC "height", strC "tall", strC "long", strC "length"]]

/-- The ordered dimension pattern list with each pattern's group count. -/
def dimPatterns : List (RE × Nat) :=
  [(dimP1, 3), (dimP2, 3), (dimP3, 2), (dimP4, 3), (dimP5, 3), (dimP6, 2), (dimP7, 3), (dimP8, 1)]

/-- Unit re-scan over the matched substring: `(cm|mm|m|inches?|in|ft|feet)`. -/
def unitScanRe : RE :=
  .grp 1 (alts [strC "cm", strC "mm", strC "m", rseq [strC "inche", ropt (chC 's')],
                strC "in", strC "ft", strC "feet"])

/-- Embedding of `extract_dimensions`. -/
def extract_dimensions (text : String) (title : String) : Option String :=
  let search_text := title ++ " " ++ text
  dimPatterns.findSome? (fun pn =>
    match reSearch pn.1 search_text with
    | some m =>
      let dims := ((mGroups search_text m pn.2).filterMap id).filter (fun g => g ≠ "")
      if dims ≠ [] then
        let whole := pySlice search_text m.start m.stop
        let unit :=
          match reSearch unitScanRe whole with
          | some um => (mGroup whole um 1).getD "cm"
          | none => "cm"
        some (String.intercalate " x " dims ++ " " ++ unit)
      else none
    | none => none)

/-! ## Attribute extractor: weight (src/app.py lines 171-183) -/

/-- Weight pattern 1: Net Weight/Weight/Net label with kg/g/lbs unit. -/
def weightP1 : RE :=
  rseq [alts [strC "net weight", strC "weight", strC "net"], chC ':', sstar,
        .grp 1 numRe, sstar, alts [strC "kg", strC "g", strC "lbs"]]

/-- Weight pattern 2: bare `N kg` followed by space, end or comma. -/
def weightP2 : RE :=
  rseq [.grp 1 numRe, sstar, alts [strC "kg", strC "kgs"], alts [spaceC, .eos, chC ',']]

/-- Embedding of `extract_weight`: returns the stripped whole match. -/
def extract_weight (text : String) : Option String :=
  [weightP1, weightP2].findSome? (fun p =>
    (reSearch p text).map (fun m => pyStrip (pySlice text m.start m.stop)))

/-! ## Attribute extractor: colour (src/app.py lines 185-232) -/

/-- Colour vocabulary, in source order. -/
def colours : List String :=
  ["black", "white", "red", "blue", "green", "yellow", "orange",
   "purple", "pink", "brown", "grey", "gray", "silver", "gold",
   "navy", "beige", "cream", "multicolour", "multi-colour", "turquoise",
   "cyan", "magenta", "maroon", "olive", "teal", "lime", "indigo",
   "violet", "coral", "salmon", "khaki", "burgundy", "champagne",
   "bronze", "copper", "rose", "mint", "lavender", "peach", "cherry",
   "ivory", "pearl", "charcoal", "slate", "emerald", "sapphire", "ruby"]

/-- Class `[A-Za-z\s\-]`, used by several label captures. -/
def wordRunCls : RE := rplus (.cls (fun c => c.isAlpha || isPySpace c || c = '-'))

/-- Colour label pattern 1: Colour/Color label. -/
def colourP1 : RE :=
  rseq [alts [strC "colour", strC "color"], chC ':', sstar, .grp 1 wordRunCls]

/-- Colour label pattern 2: Available in/Finish/Shade label. -/
def colourP2 : RE :=
  rseq [alts [strC "available in", strC "finish", strC "shade"], chC ':', sstar, .grp 1 wordRunCls]

/-- Colour label pattern 3: word preceding a material/fabric noun. -/
def colourP3 : RE :=
  rseq [.grp 1 (rplus alphaC), splus,
        alts [strC "seamless", strC "background", strC "paper", strC "fabric", strC "material"]]

/-- The ordered colour label pattern list. -/
def colour_patterns : List RE := [colourP1, colourP2, colourP3]

/-- One iteration of the labelled-pattern loop of `extract_colour`: when
the pattern matches, the first vocabulary colour contained (as a
substring, case-folded) in the match's first group, capitalised. -/
def colourPatScan (search_text : String) (pat : RE) : Option String :=
  (reSearch pat search_text).bind (fun m =>
    (colours.find? (fun c =>
      strContains (lowerStr (pyStrip ((mGroup search_text m 1).getD ""))) c)).map pyCapitalize)

/-- The labelled-pattern loop of `extract_colour`: first pattern whose
match's first group contains a vocabulary colour wins. -/
def colourLabelScan (search_text : String) : Option String :=
  colour_patterns.findSome? (colourPatScan search_text)

/-- RGB label pattern `RGB\s*Values?:\s*\((\d+),\s*(\d+),\s*(\d+)\)`. -/
def rgbRe : RE :=
  rseq [strC "rgb", sstar, strC "value", ropt (chC 's'), chC ':', sstar, chC '(',
        .grp 1 (rplus digitC), chC ',', sstar, .grp 2 (rplus digitC), chC ',', sstar,
        .grp 3 (rplus digitC), chC ')']

/-- The RGB branch of `extract_colour`: scans a window of 100 characters
before and 50 after the RGB label for a whole-word vocabulary colour. -/
def rgbScan (text : String) : Option String :=
  (reSearch rgbRe text).bind (fun m =>
    (colours.find? (fun c =>
      (reSearch (wordRe c) (pySlice text (m.start - 100) (m.stop + 50))).isSome)).map pyCapitalize)

/-- Embedding of `extract_colour`.  The `soup` parameter of the source
is unused by its body and is omitted. -/
def extract_colour (text : String) (title : String) : Option String :=
  let search_text := title ++ " " ++ text
  match colourLabelScan search_text with
  | some c => some c
  | none =>
    match rgbScan text with
    | some c => some c
    | none =>
      let text_lower := lowerStr search_text
      (colours.find? (fun c => (reSearch (wordRe c) text_lower).isSome)).map pyCapitalize

/-! ## Attribute extractor: material (src/app.py lines 234-267) -/

/-- Material vocabulary, in source order. -/
def materials : List String :=
  ["MDF", "wood", "metal", "steel", "aluminium", "aluminum",
   "plastic", "PVC", "fabric", "leather", "foam", "rubber",
   "glass", "ceramic", "carbon", "composite", "nylon", "polyester",
   "paper", "cardboard", "cotton", "wool", "silk", "linen",
   "vinyl", "acrylic", "resin", "bamboo", "oak", "pine", "mahogany",
   "stainless steel", "brass", "chrome", "titanium", "fiberglass"]

/-- Material label pattern 1: Construction/Material/Made from label. -/
def materialP1 : RE :=
  rseq [alts [strC "construction", strC "material", strC "made from", strC "manufactured from"],
        chC ':', sstar, .grp 1 (rplus (.cls (fun c => c.isAlpha || isPySpace c || c = '-' || c = '/')))]

/-- Material pattern 2: `N% recycled X` after start or whitespace. -/
def materialP2 : RE :=
  rseq [alts [.bos, spaceC],
        .grp 1 (rseq [rplus digitC, chC '%', sstar, strC "recycled", splus, rplus alphaC])]

/-- Material pattern 3: `premium/high quality X paper`. -/
def materialP3 : RE :=
  rseq [alts [strC "high quality", strC "premium"], splus,
        .grp 1 (rseq [rplus alphaC, splus, strC "paper"])]

/-- Embedding of `extract_material`. -/
def extract_material (text : String) : Option String :=
  match [materialP1, materialP2, materialP3].findSome? (fun p =>
      (reSearch p text).map (fun m => pyStrip ((mGroup text m 1).getD ""))) with
  | some v => some v
  | none =>
    let text_lower := lowerStr text
    let found_materials :=
      materials.filter (fun mt => (reSearch (wordRe (lowerStr mt)) text_lower).isSome)
    if found_materials ≠ [] then
      some (String.intercalate ", " (found_materials.take 3))
    else none

/-! ## Attribute extractor: pattern (src/app.py lines 269-289) -/

/-- Pattern-name vocabulary, in source order. -/
def patterns_list : List String :=
  ["striped", "stripes", "polka dot", "floral", "paisley", "plaid",
   "checkered", "checked", "chevron", "geometric", "animal print",
   "leopard", "zebra", "camouflage", "camo", "solid", "plain"]

/-- Pattern label `(?:Pattern):\s*([A-Za-z\s\-]+)`. -/
def patternLabelRe : RE := rseq [strC "pattern", chC ':', sstar, .grp 1 wordRunCls]

/-- Embedding of `extract_pattern`. -/
def extract_pattern (text : String) : Option String :=
  match reSearch patternLabelRe text with
  | some m => some (pyStrip ((mGroup text m 1).getD ""))
  | none =>
    let text_lower := lowerStr text
    (patterns_list.find? (fun p => (reSearch (wordRe p) text_lower).isSome)).map pyCapitalize

/-! ## Attribute extractor: size (src/app.py lines 291-309) -/

/-- Size pattern 1: letter sizes with optional X/2/3 prefix and long form. -/
def sizeP1 : RE :=
  rseq [.wordB,
        .grp 1 (rseq [ropt (alts [rseq [chC 'x', ropt (chC 'x')],
                                  .cls (fun c => c = '2' || c = '3' || c.toLower = 'x')]),
                      .cls (fun c => c.toLower = 's' || c.toLower = 'm' || c.toLower = 'l'),
                      ropt (alts [strC "arge", strC "edium", strC "mall"])]),
        .wordB]

/-- Size pattern 2: explicit size label. -/
def sizeP2 : RE :=
  rseq [.wordB, strC "size", ropt (chC ':'), sstar,
        .grp 1 (rplus (.cls (fun c => c.isAlpha || c.isDigit || c = '-' || c = '/'))), .wordB]

/-- Size pattern 3: regional numeric sizing. -/
def sizeP3 : RE :=
  rseq [.wordB, .grp 1 numRe, sstar, alts [strC "uk", strC "us", strC "eu"], .wordB]

/-- Size pattern 4: literal `one size` (no group). -/
def sizeP4 : RE := rseq [.wordB, strC "one size", .wordB]

/-- Size pattern 5: literal `OSFA` (no group). -/
def sizeP5 : RE := rseq [.wordB, strC "osfa", .wordB]

/-- The ordered size pattern list with group counts. -/
def sizePatterns : List (RE × Nat) :=
  [(sizeP1, 1), (sizeP2, 1), (sizeP3, 1), (sizeP4, 0), (sizeP5, 0)]

/-- Embedding of `extract_size`: the first matching pattern returns
immediately (its group 1 when it has groups, else the whole match). -/
def extract_size (text : String) (title : String) : Option String :=
  let search_text := title ++ " " ++ text
  match sizePatterns.findSome? (fun pn => (reSearch pn.1 search_text).map (fun m => (m, pn.2))) with
  | some (m, n) =>
    if n > 0 then mGroup search_text m 1
    else some (pySlice search_text m.start m.stop)
  | none => none

/-! ## Table scan (src/app.py lines 373-395) -/

/-- Classification of a table row's first cell by substring containment,
in the elif order of the source. -/
def classifyTableKey (key : String) : Option String :=
  if strContains key "dimension" || strContains key "size" then some "size"
  else if strContains key "weight" then some "weight"
  else if strContains key "colour" || strContains key "color" then some "colour"
  else if strContains key "material" then some "material"
  else none

/-- One row of a table: with at least two cells, the classified key of
the first cell's lowered stripped text, valued by the second cell's
stripped text. -/
def rowPair (row : List String) : Option (String × String) :=
  match row with
  | c0 :: c1 :: _ =>
    (classifyTableKey (lowerStr (pyStrip c0))).map (fun tk => (tk, pyStrip c1))
  | _ => none

/-- Embedding of `extract_table_data`: iterates every table and row,
assigning into the dict in order. -/
def extract_table_data (tables : List (List (List String))) : Bag :=
  tables.foldl (fun data table =>
    table.foldl (fun data row =>
      match rowPair row with
      | some kv => bagInsert data kv.1 kv.2
      | none => data) data) []

/-! ## Item processor and pipeline (src/app.py lines 73-133) -/

/-- A fetched and parsed detail page at the fetcher/soup boundary:
`text` is `soup.get_text()` and `tables` the cell texts of the tables. -/
structure Page where
  text : String
  tables : List (List (List String))
deriving DecidableEq

/-- Outcome of `self.session.get(url)` followed by `raise_for_status`
and souping: success, a `requests` exception, or any other exception. -/
inductive FetchResult where
  | ok (page : Page)
  | requestExc (msg : String)
  | otherExc (msg : String)
deriving DecidableEq

/-- Dict update performed for one extractor result: the key is written
only when the value is truthy (the `if value:` guards of the source). -/
def optUpd (key : String) (v : Option String) : List (String × String) :=
  match v with
  | some s => if s = "" then [] else [(key, s)]
  | none => []

/-- The seven extraction steps of the success path, each as the list of
dict assignments it performs, in source order. -/
def stepUpdates (page : Page) (title : String) : List (List (String × String)) :=
  [optUpd "size_dimensions" (extract_dimensions page.text title),
   optUpd "weight" (extract_weight page.text),
   optUpd "color" (extract_colour page.text title),
   optUpd "material" (extract_material page.text),
   optUpd "pattern" (extract_pattern page.text),
   optUpd "size" (extract_size page.text title),
   extract_table_data page.tables]

/-- Embedding of `scrape_product_attributes`.  `fetch` gives the outcome
of the network request for a URL; `fault` optionally places a
hypothetical exception after the first `j` extraction steps, embedding
the `try`/`except` control flow (a `none` fault is the ordinary run). -/
def scrape_product_attributes (fetch : String → FetchResult) (fault : Option (Nat × String))
    (record : Bag) : Bag :=
  if (bagGet record "url").getD "" = "" then bagInsert record "error" "No URL provided"
  else
    match fetch ((bagGet record "url").getD "") with
    | .requestExc msg => bagInsert record "error" ("Request error: " ++ msg)
    | .otherExc msg => bagInsert record "error" ("Processing error: " ++ msg)
    | .ok page =>
      match fault with
      | none =>
        bagInsertAll record (stepUpdates page ((bagGet record "title").getD "")).flatten
      | some jm =>
        bagInsert
          (bagInsertAll record
            (((stepUpdates page ((bagGet record "title").getD "")).take jm.1).flatten))
          "error" ("Processing error: " ++ jm.2)

/-! ## Feed parser (src/app.py lines 25-71) -/

/-- One feed item node as the two-tier lookups see it: for each of the
three fields, the namespaced and the bare element, where the outer
option is element presence and the inner option text presence. -/
structure FeedItem where
  id_g : Option (Option String)
  id_bare : Option (Option String)
  title_g : Option (Option String)
  title_bare : Option (Option String)
  link_g : Option (Option String)
  link_bare : Option (Option String)

/-- A feed document: either malformed markup (`ET.fromstring` raises) or
the list of its item nodes. -/
inductive FeedDoc where
  | malformed
  | wellFormed (items : List FeedItem)

/-- Two-tier element lookup: the namespaced element if present (even with
empty text), else the bare one. -/
def elemLookup (g bare : Option (Option String)) : Option (Option String) :=
  match g with
  | some t => some t
  | none => bare

/-- Truthy text of the looked-up element, as guarded by
`if elem is not None and elem.text:`. -/
def itemText (g bare : Option (Option String)) : Option String :=
  match elemLookup g bare with
  | some (some t) => if t = "" then none else some t
  | _ => none

/-- The product record built from one item node. -/
def recordOfItem (it : FeedItem) : Bag :=
  let product : Bag := []
  let product :=
    match itemText it.id_g it.id_bare with
    | some t => bagInsert product "id" (pyStrip t)
    | none => product
  let product :=
    match itemText it.title_g it.title_bare with
    | some t => bagInsert product "title" (pyStrip t)
    | none => product
  let product :=
    match itemText it.link_g it.link_bare with
    | some t =>
      let url := pyStrip t
      if strStartsWith url "http" then bagInsert product "url" url else product
    | none => product
  product

/-- Embedding of `extract_products_from_xml`: on well-formed input, the
loop keeps each record that obtained a `url`; on malformed input the
except branch returns the empty list. -/
def extract_products_from_xml : FeedDoc → List Bag
  | .malformed => []
  | .wellFormed items =>
    items.foldl (fun acc it =>
      let product := recordOfItem it
      if (bagGet product "url").isSome then acc ++ [product] else acc) []

/-! ## Batch orchestrator (src/app.py lines 472-509) -/

/-- Embedding of the processing loop of `main`: the cap is applied when
non-zero and smaller than the product count, then every product is
scraped in order and appended to the result list.  The inter-request
delay only suspends and is dropped. -/
def main_batch_loop (fetch : String → FetchResult) (max_urls : Nat) (products : List Bag) :
    List Bag :=
  let capped := if 0 < max_urls ∧ max_urls < products.length then products.take max_urls else products
  capped.foldl (fun acc p => acc ++ [scrape_product_attributes fetch none p]) []

/-! ## Lemmas about bags -/

theorem bagGet_insert_self (b : Bag) (k v : String) :
    bagGet (bagInsert b k v) k = some v := by
  induction b with
  | nil => simp [bagInsert, bagGet]
  | cons hd tl ih =>
    obtain ⟨k0, v0⟩ := hd
    by_cases h : k0 = k
    · subst h
      simp [bagInsert, bagGet]
    · simp [bagInsert, bagGet, h, ih]

theorem bagGet_insert_ne (b : Bag) (k v a : String) (h : a ≠ k) :
    bagGet (bagInsert b k v) a = bagGet b a := by
  have hka : ¬k = a := fun e => h e.symm
  induction b with
  | nil => simp [bagInsert, bagGet, hka]
  | cons hd tl ih =>
    obtain ⟨k0, v0⟩ := hd
    by_cases h0 : k0 = k
    · subst h0
      simp [bagInsert, bagGet, hka]
    · simp [bagInsert, bagGet, h0, ih]

theorem bagKeys_insert (b : Bag) (k v : String) :
    bagKeys (bagInsert b k v) =
      if k ∈ bagKeys b then bagKeys b else bagKeys b ++ [k] := by
  induction b with
  | nil => simp [bagInsert, bagKeys]
  | cons hd tl ih =>
    obtain ⟨k0, v0⟩ := hd
    by_cases h : k0 = k
    · subst h
      simp [bagInsert, bagKeys]
    · have hne : ¬k = k0 := fun e => h e.symm
      simp only [bagInsert, bagKeys, List.map_cons, if_neg h] at ih ⊢
      rw [ih]
      by_cases hm : k ∈ List.map (fun x : String × String => x.1) tl
      · simp [hm, hne]
      · simp [hm, hne]

theorem mem_bagKeys_insert (b : Bag) (k v a : String) :
    a ∈ bagKeys (bagInsert b k v) ↔ a ∈ bagKeys b ∨ a = k := by
  rw [bagKeys_insert]
  by_cases hm : k ∈ bagKeys b
  · simp only [hm, if_true]
    constructor
    · exact Or.inl
    · rintro (h | rfl)
      · exact h
      · exact hm
  · simp [hm]

theorem bagKeys_insert_nodup (b : Bag) (k v : String) (h : (bagKeys b).Nodup) :
    (bagKeys (bagInsert b k v)).Nodup := by
  rw [bagKeys_insert]
  by_cases hm : k ∈ bagKeys b
  · simpa [hm]
  · simp [hm, List.nodup_append, h]

theorem bagInsertAll_nil (b : Bag) : bagInsertAll b [] = b := rfl

theorem bagInsertAll_cons (b : Bag) (p : String × String) (ps : List (String × String)) :
    bagInsertAll b (p :: ps) = bagInsertAll (bagInsert b p.1 p.2) ps := rfl

theorem bagInsertAll_append (b : Bag) (ps qs : List (String × String)) :
    bagInsertAll b (ps ++ qs) = bagInsertAll (bagInsertAll b ps) qs := by
  simp [bagInsertAll, List.foldl_append]

theorem mem_bagKeys_insertAll (ps : List (String × String)) (b : Bag) (a : String) :
    a ∈ bagKeys (bagInsertAll b ps) ↔ a ∈ bagKeys b ∨ ∃ p ∈ ps, p.1 = a := by
  induction ps generalizing b with
  | nil => simp [bagInsertAll]
  | cons p ps ih =>
    rw [bagInsertAll_cons, ih, mem_bagKeys_insert]
    constructor
    · rintro ((h | h) | ⟨q, hq, rfl⟩)
      · exact Or.inl h
      · exact Or.inr ⟨p, by simp, h.symm⟩
      · exact Or.inr ⟨q, by simp [hq], rfl⟩
    · rintro (h | ⟨q, hq, rfl⟩)
      · exact Or.inl (Or.inl h)
      · rcases List.mem_cons.mp hq with h1 | h1
        · subst h1
          exact Or.inl (Or.inr rfl)
        · exact Or.inr ⟨q, h1, rfl⟩

theorem bagKeys_insertAll_nodup (ps : List (String × String)) (b : Bag)
    (h : (bagKeys b).Nodup) : (bagKeys (bagInsertAll b ps)).Nodup := by
  induction ps generalizing b with
  | nil => exact h
  | cons p ps ih => exact ih _ (bagKeys_insert_nodup _ _ _ h)

theorem bagGet_insertAll_of_ne (ps : List (String × String)) (b : Bag) (a : String)
    (h : ∀ p ∈ ps, p.1 ≠ a) : bagGet (bagInsertAll b ps) a = bagGet b a := by
  induction ps generalizing b with
  | nil => rfl
  | cons p ps ih =>
    rw [bagInsertAll_cons, ih _ (fun q hq => h q (List.mem_cons_of_mem _ hq)),
      bagGet_insert_ne]
    exact fun e => h p (List.mem_cons_self _ _) e.symm

theorem bagGet_insertAll (ps : List (String × String)) (b : Bag) (k : String) :
    bagGet (bagInsertAll b ps) k =
      match ps.reverse.find? (fun p => p.1 == k) with
      | some p => some p.2
      | none => bagGet b k := by
  induction ps using List.reverseRecOn with
  | nil => simp [bagInsertAll]
  | append_singleton ps p ih =>
    rw [bagInsertAll_append, bagInsertAll_cons, bagInsertAll_nil, List.reverse_append]
    by_cases h : p.1 = k
    · subst h
      simp [List.find?_cons_of_pos, bagGet_insert_self]
    · have hb : (p.1 == k) = false := by simpa using h
      simp only [List.reverse_cons, List.reverse_nil, List.nil_append, List.cons_append,
        List.find?_cons, hb]
      rw [bagGet_insert_ne _ _ _ _ (fun e => h e.symm), ih]

theorem bagGet_insertAll_self_of_nodup (t : Bag) (ht : (bagKeys t).Nodup) (a : String)
    (ha : a ∈ bagKeys t) (b : Bag) : bagGet (bagInsertAll b t) a = bagGet t a := by
  induction t generalizing b with
  | nil => simp [bagKeys] at ha
  | cons p t ih =>
    obtain ⟨k, v⟩ := p
    have hcons : bagKeys ((k, v) :: t) = k :: bagKeys t := rfl
    rw [hcons] at ht ha
    have hk : k ∉ bagKeys t := (List.nodup_cons.mp ht).1
    have ht' : (bagKeys t).Nodup := (List.nodup_cons.mp ht).2
    rw [bagInsertAll_cons]
    by_cases hak : a = k
    · subst hak
      have hnone : ∀ q ∈ t, q.1 ≠ a := by
        intro q hq he
        exact hk (List.mem_map.mpr ⟨q, hq, he⟩)
      rw [bagGet_insertAll_of_ne _ _ _ hnone, bagGet_insert_self]
      simp [bagGet]
    · have ha' : a ∈ bagKeys t := by
        rcases List.mem_cons.mp ha with h | h
        · exact absurd h hak
        · exact h
      have hne : ¬k = a := fun e => hak e.symm
      rw [ih ht' ha']
      simp [bagGet, hne]

/-! ## Lemmas about the table scan and the extraction steps -/

theorem foldl_rows_eq (rows : List (List String)) (data : Bag) :
    rows.foldl (fun data row =>
      match rowPair row with
      | some kv => bagInsert data kv.1 kv.2
      | none => data) data = bagInsertAll data (rows.filterMap rowPair) := by
  induction rows generalizing data with
  | nil => rfl
  | cons r rs ih =>
    cases h : rowPair r <;>
      simp [List.filterMap_cons, h, ih, bagInsertAll_cons]

theorem extract_table_data_eq_aux (tables : List (List (List String))) (data : Bag) :
    tables.foldl (fun data table =>
      table.foldl (fun data row =>
        match rowPair row with
        | some kv => bagInsert data kv.1 kv.2
        | none => data) data) data
    = bagInsertAll data (tables.flatten.filterMap rowPair) := by
  induction tables generalizing data with
  | nil => rfl
  | cons t ts ih =>
    rw [List.foldl_cons, ih, List.flatten_cons, List.filterMap_append, bagInsertAll_append,
      foldl_rows_eq]

theorem extract_table_data_eq (tables : List (List (List String))) :
    extract_table_data tables = bagInsertAll [] (tables.flatten.filterMap rowPair) :=
  extract_table_data_eq_aux tables []

theorem classifyTableKey_mem (s tk : String) (h : classifyTableKey s = some tk) :
    tk ∈ ["size", "weight", "colour", "material"] := by
  unfold classifyTableKey at h
  split at h
  · simp at h
    subst h
    decide
  · split at h
    · simp at h
      subst h
      decide
    · split at h
      · simp at h
        subst h
        decide
      · split at h
        · simp at h
          subst h
          decide
        · simp at h

theorem rowPair_key_mem (row : List String) (p : String × String) (h : rowPair row = some p) :
    p.1 ∈ ["size", "weight", "colour", "material"] := by
  cases row with
  | nil => simp [rowPair] at h
  | cons c0 rest =>
    cases rest with
    | nil => simp [rowPair] at h
    | cons c1 r2 =>
      simp only [rowPair] at h
      cases hc : classifyTableKey (lowerStr (pyStrip c0)) with
      | none => rw [hc] at h; simp at h
      | some tk =>
        rw [hc] at h
        simp only [Option.map_some'] at h
        injection h with h2
        rw [← h2]
        exact classifyTableKey_mem _ _ hc

theorem extract_table_data_key_mem (tables : List (List (List String))) (q : String × String)
    (h : q ∈ extract_table_data tables) : q.1 ∈ ["size", "weight", "colour", "material"] := by
  rw [extract_table_data_eq] at h
  have h1 : q.1 ∈ bagKeys (bagInsertAll [] (tables.flatten.filterMap rowPair)) :=
    List.mem_map.mpr ⟨q, h, rfl⟩
  rcases (mem_bagKeys_insertAll _ _ _).mp h1 with h2 | ⟨p, hp, hpe⟩
  · simp [bagKeys] at h2
  · rcases List.mem_filterMap.mp hp with ⟨row, _, hrp⟩
    exact hpe ▸ rowPair_key_mem _ _ hrp

theorem extract_table_data_nodup (tables : List (List (List String))) :
    (bagKeys (extract_table_data tables)).Nodup := by
  rw [extract_table_data_eq]
  exact bagKeys_insertAll_nodup _ _ (by simp [bagKeys])

theorem optUpd_key (key : String) (v : Option String) (p : String × String)
    (h : p ∈ optUpd key v) : p.1 = key := by
  cases v with
  | none => simp [optUpd] at h
  | some s =>
    by_cases hs : s = ""
    · simp [optUpd, hs] at h
    · simp only [optUpd, if_neg hs, List.mem_singleton] at h
      rw [h]

theorem mem_stepUpdates_flatten (page : Page) (title : String) (q : String × String)
    (h : q ∈ (stepUpdates page title).flatten) :
    q.1 ∈ ["size_dimensions", "weight", "color", "material", "pattern", "size", "colour"] := by
  simp only [stepUpdates, List.flatten_cons, List.flatten_nil, List.append_nil,
    List.mem_append] at h
  rcases h with h | h | h | h | h | h | h
  · rw [optUpd_key _ _ _ h]; decide
  · rw [optUpd_key _ _ _ h]; decide
  · rw [optUpd_key _ _ _ h]; decide
  · rw [optUpd_key _ _ _ h]; decide
  · rw [optUpd_key _ _ _ h]; decide
  · rw [optUpd_key _ _ _ h]; decide
  · have h4 := extract_table_data_key_mem _ _ h
    simp only [List.mem_cons, List.not_mem_nil, or_false] at h4 ⊢
    tauto

theorem mem_stepUpdates_take (page : Page) (title : String) (j : Nat) (hj : j < 6)
    (q : String × String) (h : q ∈ ((stepUpdates page title).take j).flatten) :
    q.1 ∈ ["size_dimensions", "weight", "color", "material", "pattern", "size"].take j := by
  interval_cases j
  · simp at h
  · simp only [stepUpdates, List.take_succ_cons, List.take_zero, List.flatten_cons,
      List.flatten_nil, List.append_nil, List.mem_append] at h
    rw [optUpd_key _ _ _ h]
    decide
  · simp only [stepUpdates, List.take_succ_cons, List.take_zero, List.flatten_cons,
      List.flatten_nil, List.append_nil, List.mem_append] at h
    rcases h with h | h <;> (rw [optUpd_key _ _ _ h]; decide)
  · simp only [stepUpdates, List.take_succ_cons, List.take_zero, List.flatten_cons,
      List.flatten_nil, List.append_nil, List.mem_append] at h
    rcases h with h | h | h <;> (rw [optUpd_key _ _ _ h]; decide)
  · simp only [stepUpdates, List.take_succ_cons, List.take_zero, List.flatten_cons,
      List.flatten_nil, List.append_nil, List.mem_append] at h
    rcases h with h | h | h | h <;> (rw [optUpd_key _ _ _ h]; decide)
  · simp only [stepUpdates, List.take_succ_cons, List.take_zero, List.flatten_cons,
      List.flatten_nil, List.append_nil, List.mem_append] at h
    rcases h with h | h | h | h | h <;> (rw [optUpd_key _ _ _ h]; decide)

theorem step_keys_no_overwrite (record : Bag) (pre : List (String × String)) (key : String)
    (hbase : ∀ a ∈ bagKeys record, a ∈ ["id", "title", "url"])
    (hkey : key ∉ (["id", "title", "url"] : List String))
    (hpre : ∀ q ∈ pre, q.1 ≠ key) :
    key ∉ bagKeys (bagInsertAll record pre) := by
  intro hmem
  rcases (mem_bagKeys_insertAll _ _ _).mp hmem with h | ⟨q, hq, hqe⟩
  · exact hkey (hbase key h)
  · exact hpre q hq hqe

theorem mem_flatten_take {α : Type} (l : List (List α)) (n : Nat) (q : α)
    (h : q ∈ (l.take n).flatten) : q ∈ l.flatten := by
  rcases List.mem_flatten.mp h with ⟨s, hs, hq⟩
  exact List.mem_flatten.mpr ⟨s, (List.take_sublist n l).subset hs, hq⟩

/-! ## Claim theorems: item processor fault handling and key discipline -/

/-- C2: the Item Processor is total and never propagates a fault: for
every fetch outcome, fault point and input record, it returns a bag
whose keys stay duplicate-free (hence at most one `error` key), and when
an extraction fault fires after `j` steps the returned bag carries the
generic processing-error marker while every key added by the first `j`
steps is still present. -/
theorem c2_item_processor_fault_isolation
    (fetch : String → FetchResult) (fault : Option (Nat × String)) (record : Bag)
    (hn : (bagKeys record).Nodup) :
    (bagKeys (scrape_product_attributes fetch fault record)).Nodup
    ∧ List.count "error" (bagKeys (scrape_product_attributes fetch fault record)) ≤ 1
    ∧ (∀ page j msg,
        fetch ((bagGet record "url").getD "") = FetchResult.ok page →
        (bagGet record "url").getD "" ≠ "" →
        fault = some (j, msg) →
        bagGet (scrape_product_attributes fetch fault record) "error"
            = some ("Processing error: " ++ msg)
        ∧ ∀ a ∈ bagKeys (bagInsertAll record
              (((stepUpdates page ((bagGet record "title").getD "")).take j).flatten)),
            a ∈ bagKeys (scrape_product_attributes fetch fault record)) := by
  have hnodup : (bagKeys (scrape_product_attributes fetch fault record)).Nodup := by
    unfold scrape_product_attributes
    split
    · exact bagKeys_insert_nodup _ _ _ hn
    · generalize fetch ((bagGet record "url").getD "") = fr
      cases fr with
      | requestExc msg => exact bagKeys_insert_nodup _ _ _ hn
      | otherExc msg => exact bagKeys_insert_nodup _ _ _ hn
      | ok page =>
        cases fault with
        | none => exact bagKeys_insertAll_nodup _ _ hn
        | some jm => exact bagKeys_insert_nodup _ _ _ (bagKeys_insertAll_nodup _ _ hn)
  refine ⟨hnodup, List.nodup_iff_count_le_one.mp hnodup "error", ?_⟩
  intro page j msg hok hurl hf
  subst hf
  unfold scrape_product_attributes
  rw [if_neg hurl, hok]
  exact ⟨bagGet_insert_self _ _ _,
    fun a ha => (mem_bagKeys_insert _ _ _ _).mpr (Or.inl ha)⟩

/-- C3: on transport failure the Item Processor returns exactly the
input record plus a RequestError-flavoured marker (no extracted keys),
and an empty url short-circuits to the error marker without the fetch
function playing any role. -/
theorem c3_transport_failure_no_partial_extraction
    (fetch : String → FetchResult) (fault : Option (Nat × String)) (record : Bag)
    (msg : String) :
    (fetch ((bagGet record "url").getD "") = FetchResult.requestExc msg →
      (bagGet record "url").getD "" ≠ "" →
      scrape_product_attributes fetch fault record
        = bagInsert record "error" ("Request error: " ++ msg))
    ∧ ((bagGet record "url").getD "" = "" →
      scrape_product_attributes fetch fault record = bagInsert record "error" "No URL provided"
      ∧ ∀ fetch2 fault2, scrape_product_attributes fetch fault record
          = scrape_product_attributes fetch2 fault2 record) := by
  constructor
  · intro hreq hurl
    unfold scrape_product_attributes
    rw [if_neg hurl, hreq]
  · intro hurl
    constructor
    · unfold scrape_product_attributes
      rw [if_pos hurl]
    · intro fetch2 fault2
      unfold scrape_product_attributes
      rw [if_pos hurl, if_pos hurl]

/-- C4: within the table scan the last qualifying row wins for each
classified key; the six regex extraction steps never write a key that is
already in the bag (for records carrying only the base fields); and the
table-scan values, merged last, overwrite any bag key they share, where
the merged bag is exactly the Item Processor's success-path output. -/
theorem c4_overwrite_semantics
    (tables : List (List (List String))) (page : Page) (title : String)
    (record : Bag) (k : String)
    (hbase : ∀ a ∈ bagKeys record, a ∈ ["id", "title", "url"]) :
    (bagGet (extract_table_data tables) k =
      ((tables.flatten.filterMap rowPair).reverse.find? (fun p => p.1 == k)).map (fun p => p.2))
    ∧ (∀ j, j < 6 → ∀ kv ∈ (stepUpdates page title).getD j [],
        kv.1 ∉ bagKeys (bagInsertAll record (((stepUpdates page title).take j).flatten)))
    ∧ (∀ a ∈ bagKeys (extract_table_data page.tables),
        bagGet (bagInsertAll record (stepUpdates page title).flatten) a
          = bagGet (extract_table_data page.tables) a)
    ∧ (∀ fetch : String → FetchResult,
        fetch ((bagGet record "url").getD "") = FetchResult.ok page →
        (bagGet record "url").getD "" ≠ "" →
        scrape_product_attributes fetch none record
          = bagInsertAll record (stepUpdates page ((bagGet record "title").getD "")).flatten) := by
  refine ⟨?_, ?_, ?_, ?_⟩
  · rw [extract_table_data_eq, bagGet_insertAll]
    cases (tables.flatten.filterMap rowPair).reverse.find? (fun p => p.1 == k) <;>
      simp [bagGet]
  · intro j hj kv hkv
    interval_cases j <;>
      simp only [stepUpdates, List.getD_cons_zero, List.getD_cons_succ] at hkv <;>
      rw [optUpd_key _ _ _ hkv] <;>
      exact step_keys_no_overwrite record _ _ hbase (by decide)
        (fun q hq he => absurd (he ▸ mem_stepUpdates_take page title _ (by omega) q hq)
          (by decide))
  · intro a ha
    have hsplit : (stepUpdates page title).flatten
        = ((stepUpdates page title).take 6).flatten ++ extract_table_data page.tables := by
      simp [stepUpdates, List.flatten_cons, List.flatten_nil, List.append_assoc]
    rw [hsplit, bagInsertAll_append]
    exact bagGet_insertAll_self_of_nodup _ (extract_table_data_nodup _) a ha _
  · intro fetch hok hurl
    unfold scrape_product_attributes
    rw [if_neg hurl, hok]

/-- C9: the extraction stage is deterministic: the Item Processor's
output depends only on the fetched content for the record's url (two
fetch functions that agree there give identical bags), and running the
dimension extractor twice on the same text gives the same result. -/
theorem c9_determinism (f1 f2 : String → FetchResult) (fault : Option (Nat × String))
    (record : Bag)
    (h : f1 ((bagGet record "url").getD "") = f2 ((bagGet record "url").getD "")) :
    scrape_product_attributes f1 fault record = scrape_product_attributes f2 fault record
    ∧ ∀ text title, extract_dimensions text title = extract_dimensions text title := by
  constructor
  · unfold scrape_product_attributes
    rw [h]
  · intro text title
    rfl

/-- C10: the keys of every bag the Item Processor returns lie in the
input record's keys united with the fixed vocabulary
`size_dimensions, weight, color, material, pattern, size, colour, error`;
in particular no identifier, brand, warranty, motor or GSM key can ever
appear. -/
theorem c10_key_vocabulary (fetch : String → FetchResult) (fault : Option (Nat × String))
    (record : Bag) (a : String)
    (h : a ∈ bagKeys (scrape_product_attributes fetch fault record)) :
    a ∈ bagKeys record
      ∨ a ∈ ["size_dimensions", "weight", "color", "material", "pattern", "size", "colour",
             "error"] := by
  unfold scrape_product_attributes at h
  split at h
  · rcases (mem_bagKeys_insert _ _ _ _).mp h with h1 | rfl
    · exact Or.inl h1
    · exact Or.inr (by decide)
  · generalize fetch ((bagGet record "url").getD "") = fr at h
    cases fr with
    | requestExc msg =>
      rcases (mem_bagKeys_insert _ _ _ _).mp h with h1 | rfl
      · exact Or.inl h1
      · exact Or.inr (by decide)
    | otherExc msg =>
      rcases (mem_bagKeys_insert _ _ _ _).mp h with h1 | rfl
      · exact Or.inl h1
      · exact Or.inr (by decide)
    | ok page =>
      cases fault with
      | none =>
        rcases (mem_bagKeys_insertAll _ _ _).mp h with h1 | ⟨q, hq, rfl⟩
        · exact Or.inl h1
        · have h7 := mem_stepUpdates_flatten page _ q hq
          refine Or.inr ?_
          simp only [List.mem_cons, List.not_mem_nil, or_false] at h7 ⊢
          tauto
      | some jm =>
        rcases (mem_bagKeys_insert _ _ _ _).mp h with h1 | rfl
        · rcases (mem_bagKeys_insertAll _ _ _).mp h1 with h2 | ⟨q, hq, rfl⟩
          · exact Or.inl h2
          · have h7 := mem_stepUpdates_flatten page _ q (mem_flatten_take _ _ _ hq)
            refine Or.inr ?_
            simp only [List.mem_cons, List.not_mem_nil, or_false] at h7 ⊢
            tauto
        · exact Or.inr (by decide)

/-! ## Lemmas about the colour extractor -/

theorem colourPatScan_shape (s : String) (pat : RE) (c' : String)
    (h : colourPatScan s pat = some c') : ∃ col ∈ colours, c' = pyCapitalize col := by
  unfold colourPatScan at h
  rcases hre : reSearch pat s with _ | m
  · rw [hre, Option.none_bind] at h
    exact absurd h (by simp)
  · rw [hre, Option.some_bind] at h
    rcases hfind : colours.find? (fun c =>
        strContains (lowerStr (pyStrip ((mGroup s m 1).getD ""))) c) with _ | col
    · rw [hfind] at h
      simp at h
    · rw [hfind] at h
      simp only [Option.map_some'] at h
      injection h with h2
      exact ⟨col, List.mem_of_find?_eq_some hfind, h2.symm⟩

theorem colourLabelScan_shape (s c' : String) (h : colourLabelScan s = some c') :
    ∃ col ∈ colours, c' = pyCapitalize col := by
  unfold colourLabelScan at h
  rcases List.exists_of_findSome?_eq_some h with ⟨pat, _, hpat⟩
  exact colourPatScan_shape _ _ _ hpat

theorem rgbScan_shape (t c' : String) (h : rgbScan t = some c') :
    ∃ col ∈ colours, c' = pyCapitalize col := by
  unfold rgbScan at h
  rcases hre : reSearch rgbRe t with _ | m
  · rw [hre, Option.none_bind] at h
    exact absurd h (by simp)
  · rw [hre, Option.some_bind] at h
    rcases hfind : colours.find? (fun c =>
        (reSearch (wordRe c) (pySlice t (m.start - 100) (m.stop + 50))).isSome) with _ | col
    · rw [hfind] at h
      simp at h
    · rw [hfind] at h
      simp only [Option.map_some'] at h
      injection h with h2
      exact ⟨col, List.mem_of_find?_eq_some hfind, h2.symm⟩

/-! ## Claim theorem: colour extractor -/

/-- C5: whenever any vocabulary colour occurs as a whole word in the
combined title-and-text (case-folded), the colour extractor returns some
capitalised vocabulary colour; and when no labelled form (label
patterns, RGB window) produced a value, the result is exactly the first
colour in vocabulary order whose whole word occurs, regardless of text
position. -/
theorem c5_colour_vocabulary (text title : String) :
    ((∃ c ∈ colours, (reSearch (wordRe c) (lowerStr (title ++ " " ++ text))).isSome) →
      ∃ c ∈ colours, extract_colour text title = some (pyCapitalize c))
    ∧ (colourLabelScan (title ++ " " ++ text) = none →
      rgbScan text = none →
      extract_colour text title
        = (colours.find? (fun c =>
            (reSearch (wordRe c) (lowerStr (title ++ " " ++ text))).isSome)).map pyCapitalize) := by
  constructor
  · intro hex
    rcases hls : colourLabelScan (title ++ " " ++ text) with _ | c
    · rcases hrgb : rgbScan text with _ | c
      · have hval : extract_colour text title
            = (colours.find? (fun c =>
                (reSearch (wordRe c) (lowerStr (title ++ " " ++ text))).isSome)).map
              pyCapitalize := by
          simp only [extract_colour]
          rw [hls, hrgb]
        have hsome : (colours.find? (fun c =>
            (reSearch (wordRe c) (lowerStr (title ++ " " ++ text))).isSome)).isSome :=
          List.find?_isSome.mpr hex
        rcases Option.isSome_iff_exists.mp hsome with ⟨col, hcol⟩
        refine ⟨col, List.mem_of_find?_eq_some hcol, ?_⟩
        rw [hval, hcol, Option.map_some']
      · have hval : extract_colour text title = some c := by
          simp only [extract_colour]
          rw [hls, hrgb]
        rcases rgbScan_shape _ _ hrgb with ⟨col, hm, rfl⟩
        exact ⟨col, hm, hval⟩
    · have hval : extract_colour text title = some c := by
        simp only [extract_colour]
        rw [hls]
      rcases colourLabelScan_shape _ _ hls with ⟨col, hm, rfl⟩
      exact ⟨col, hm, hval⟩
  · intro h1 h2
    simp only [extract_colour]
    rw [h1, h2]

/-! ## Lemmas about the feed parser and the batch loop -/

/-- The accepted detail URL of an item: the looked-up link's truthy text,
stripped, when it begins with `http`. -/
def acceptedUrl (it : FeedItem) : Option String :=
  match itemText it.link_g it.link_bare with
  | some t => if strStartsWith (pyStrip t) "http" then some (pyStrip t) else none
  | none => none

theorem bagGet_recordOfItem_url (it : FeedItem) :
    bagGet (recordOfItem it) "url" = acceptedUrl it := by
  unfold recordOfItem acceptedUrl
  cases hid : itemText it.id_g it.id_bare <;>
    cases htt : itemText it.title_g it.title_bare <;>
    cases htl : itemText it.link_g it.link_bare <;>
    simp only [] <;>
    (try split) <;>
    simp [bagGet, bagInsert]

theorem extract_products_foldl_eq (items : List FeedItem) (acc : List Bag) :
    items.foldl (fun acc it =>
      let product := recordOfItem it
      if (bagGet product "url").isSome then acc ++ [product] else acc) acc
    = acc ++ items.filterMap (fun it =>
        if (acceptedUrl it).isSome then some (recordOfItem it) else none) := by
  induction items generalizing acc with
  | nil => simp
  | cons it its ih =>
    rw [List.foldl_cons, List.filterMap_cons]
    cases h : (acceptedUrl it).isSome with
    | true =>
      have h2 : (bagGet (recordOfItem it) "url").isSome = true := by
        rw [bagGet_recordOfItem_url]
        exact h
      simp only [h2, if_true, ih, h]
      simp
    | false =>
      have h2 : (bagGet (recordOfItem it) "url").isSome = false := by
        rw [bagGet_recordOfItem_url]
        exact h
      simp only [h2, ih, h]
      simp

theorem length_filterMap_guard {α β : Type} (p : α → Bool) (g : α → β) (l : List α) :
    (l.filterMap (fun x => if p x then some (g x) else none)).length = l.countP p := by
  induction l with
  | nil => rfl
  | cons x xs ih =>
    cases h : p x <;> simp [List.filterMap_cons, h, ih, List.countP_cons]

/-! ## Claim theorems: feed parser and batch orchestrator -/

/-- C6: for well-formed feeds, the parser keeps exactly the items whose
looked-up, trimmed link begins with `http`, in feed order, one record
per accepted item; the output length is the count of accepted items. -/
theorem c6_feed_parser_url_filter (items : List FeedItem) :
    extract_products_from_xml (FeedDoc.wellFormed items)
      = items.filterMap (fun it =>
          if (acceptedUrl it).isSome then some (recordOfItem it) else none)
    ∧ (extract_products_from_xml (FeedDoc.wellFormed items)).length
      = items.countP (fun it => (acceptedUrl it).isSome) := by
  have h : extract_products_from_xml (FeedDoc.wellFormed items)
      = items.filterMap (fun it =>
          if (acceptedUrl it).isSome then some (recordOfItem it) else none) := by
    have hred : extract_products_from_xml (FeedDoc.wellFormed items)
        = items.foldl (fun acc it =>
            let product := recordOfItem it
            if (bagGet product "url").isSome then acc ++ [product] else acc) [] := rfl
    rw [hred, extract_products_foldl_eq]
    simp
  refine ⟨h, ?_⟩
  rw [h, length_filterMap_guard]

/-- C7: a feed document that does not parse as well-formed markup yields
the empty sequence: the except branch of the parser returns no items at
all (no partial recovery). -/
theorem c7_malformed_feed_yields_empty :
    extract_products_from_xml FeedDoc.malformed = [] := rfl

theorem batch_foldl_eq (fetch : String → FetchResult) (l : List Bag) (acc : List Bag) :
    l.foldl (fun acc p => acc ++ [scrape_product_attributes fetch none p]) acc
    = acc ++ l.map (scrape_product_attributes fetch none) := by
  induction l generalizing acc with
  | nil => simp
  | cons x xs ih => simp [ih]

/-- C8: with a non-zero cap smaller than the item count, the batch loop
processes exactly the first `N` items in order, producing one bag per
post-cap item; each position's output is the processed input at that
position, independently of any other item's outcome. -/
theorem c8_batch_cap_and_independence (fetch : String → FetchResult) (max_urls : Nat)
    (products : List Bag) (h1 : 0 < max_urls) (h2 : max_urls < products.length) :
    main_batch_loop fetch max_urls products
      = (products.take max_urls).map (scrape_product_attributes fetch none)
    ∧ (main_batch_loop fetch max_urls products).length = max_urls
    ∧ ∀ i, i < max_urls →
        (main_batch_loop fetch max_urls products).get? i
          = (products.get? i).map (scrape_product_attributes fetch none) := by
  have hmain : main_batch_loop fetch max_urls products
      = (products.take max_urls).map (scrape_product_attributes fetch none) := by
    unfold main_batch_loop
    rw [if_pos ⟨h1, h2⟩, batch_foldl_eq]
    simp
  refine ⟨hmain, ?_, ?_⟩
  · rw [hmain]
    simp only [List.length_map, List.length_take]
    omega
  · intro i hi
    rw [hmain, List.get?_map, List.get?_take hi]

/-! ## Scenario A: concrete end-to-end run -/

/-- Scenario A feed item: namespaced title and link elements only. -/
def scenarioAItem : FeedItem :=
  ⟨none, none, some (some "Blue Cotton Scarf M"), none,
   some (some "http://example.com/p1"), none⟩

/-- Scenario A detail page: the given rendered text, no tables. -/
def scenarioAPage : Page :=
  ⟨"Colour: Blue. Material: Cotton. Size: M. Weight: 0.3 kg.", []⟩

/-- Scenario A result: the Item Processor applied to the single record
the Feed Parser yields for the scenario feed, with a fetch that returns
the scenario page. -/
def scenarioABag : Bag :=
  scrape_product_attributes (fun _ => FetchResult.ok scenarioAPage) none
    ((extract_products_from_xml (FeedDoc.wellFormed [scenarioAItem])).headD [])

set_option maxRecDepth 100000 in
/-- C1: end-to-end scenario A: the feed with one item (link
`http://example.com/p1`, title `Blue Cotton Scarf M`) yields one record,
and processing it against the given detail page text produces a bag
mapping color to `Blue`, material to `Cotton`, size to `M` and weight to
the matched substring `Weight: 0.3 kg`, with no error key. -/
theorem c1_end_to_end_scenario_a :
    extract_products_from_xml (FeedDoc.wellFormed [scenarioAItem])
      = [[("title", "Blue Cotton Scarf M"), ("url", "http://example.com/p1")]]
    ∧ bagGet scenarioABag "color" = some "Blue"
    ∧ bagGet scenarioABag "material" = some "Cotton"
    ∧ bagGet scenarioABag "size" = some "M"
    ∧ bagGet scenarioABag "weight" = some "Weight: 0.3 kg"
    ∧ bagGet scenarioABag "error" = none := by
  have hbag : scenarioABag
      = [("title", "Blue Cotton Scarf M"), ("url", "http://example.com/p1"),
         ("weight", "Weight: 0.3 kg"), ("color", "Blue"), ("material", "Cotton"),
         ("size", "M")] := by decide
  refine ⟨by decide, ?_, ?_, ?_, ?_, ?_⟩ <;> rw [hbag] <;> decide

/-! ## Witnesses: the claim theorems applied at concrete inputs -/

set_option maxRecDepth 100000 in
/-- Witness for C2: a fault after two extraction steps on a concrete
record leaves the processing-error marker on the bag. -/
theorem c2_item_processor_fault_isolation_witness :
    bagGet (scrape_product_attributes (fun _ => FetchResult.ok ⟨"", []⟩) (some (2, "boom"))
      [("url", "http://x")]) "error" = some ("Processing error: " ++ "boom") :=
  ((c2_item_processor_fault_isolation (fun _ => FetchResult.ok ⟨"", []⟩) (some (2, "boom"))
    [("url", "http://x")] (by decide)).2.2 ⟨"", []⟩ 2 "boom" rfl (by decide) rfl).1

set_option maxRecDepth 100000 in
/-- Witness for C3: a concrete timeout yields exactly the base fields
plus the request-error marker, and a concrete url-less record yields the
no-URL marker. -/
theorem c3_transport_failure_no_partial_extraction_witness :
    scrape_product_attributes (fun _ => FetchResult.requestExc "timeout") none
        [("id", "1"), ("title", "T"), ("url", "http://x")]
      = [("id", "1"), ("title", "T"), ("url", "http://x"),
         ("error", "Request error: " ++ "timeout")]
    ∧ scrape_product_attributes (fun _ => FetchResult.ok ⟨"red", []⟩) none [("id", "2")]
      = [("id", "2"), ("error", "No URL provided")] := by
  constructor
  · rw [(c3_transport_failure_no_partial_extraction
      (fun _ => FetchResult.requestExc "timeout") none
      [("id", "1"), ("title", "T"), ("url", "http://x")] "timeout").1 rfl (by decide)]
    decide
  · rw [((c3_transport_failure_no_partial_extraction
      (fun _ => FetchResult.ok ⟨"red", []⟩) none [("id", "2")] "x").2 (by decide)).1]
    decide

set_option maxRecDepth 100000 in
/-- Witness for C4: with two rows both classifying to `size`, the table
scan returns the later row's value. -/
theorem c4_overwrite_semantics_witness :
    bagGet (extract_table_data [[["Size", "L"], ["Dimensions", "2 x 3 cm"]]]) "size"
      = some "2 x 3 cm" := by
  rw [(c4_overwrite_semantics [[["Size", "L"], ["Dimensions", "2 x 3 cm"]]]
    ⟨"", []⟩ "" [("id", "1"), ("url", "http://x")] "size" (by decide)).1]
  decide

set_option maxRecDepth 100000 in
/-- Witness for C5: on a label-free text containing `teal` before `red`,
the extractor returns a capitalised vocabulary colour, namely the
vocabulary-order first (`Red`), not the positionally first. -/
theorem c5_colour_vocabulary_witness :
    (∃ c ∈ colours, extract_colour "a teal red thing" "" = some (pyCapitalize c))
    ∧ extract_colour "a teal red thing" ""
        = (colours.find? (fun c =>
            (reSearch (wordRe c) (lowerStr ("" ++ " " ++ "a teal red thing"))).isSome)).map
          pyCapitalize := by
  have h := c5_colour_vocabulary "a teal red thing" ""
  exact ⟨h.1 (by decide), h.2 (by decide) (by decide)⟩

set_option maxRecDepth 100000 in
/-- Witness for C8: two url-less items with cap 1 produce exactly the
first item's processed bag. -/
theorem c8_batch_cap_and_independence_witness :
    main_batch_loop (fun _ => FetchResult.requestExc "x") 1 [[("id", "1")], [("id", "2")]]
      = [[("id", "1"), ("error", "No URL provided")]] := by
  rw [(c8_batch_cap_and_independence (fun _ => FetchResult.requestExc "x") 1
    [[("id", "1")], [("id", "2")]] (by decide) (by decide)).1]
  decide

/-- Witness for C9: two fetch functions agreeing on the record's url
give the same bag, and a concrete double run of the dimension extractor
agrees with itself. -/
theorem c9_determinism_witness :
    scrape_product_attributes (fun _ => FetchResult.ok ⟨"5 kg", []⟩) none [("url", "http://a")]
      = scrape_product_attributes
          (fun u => if u = "http://a" then FetchResult.ok ⟨"5 kg", []⟩
                    else FetchResult.requestExc "no") none [("url", "http://a")]
    ∧ extract_dimensions "40 cm wide" "" = extract_dimensions "40 cm wide" "" := by
  have h := c9_determinism (fun _ => FetchResult.ok ⟨"5 kg", []⟩)
    (fun u => if u = "http://a" then FetchResult.ok ⟨"5 kg", []⟩
              else FetchResult.requestExc "no") none [("url", "http://a")] (by decide)
  exact ⟨h.1, h.2 "40 cm wide" ""⟩

set_option maxRecDepth 100000 in
/-- Witness for C10: the `color` key of a concretely processed record is
accounted for by the fixed key vocabulary. -/
theorem c10_key_vocabulary_witness :
    "color" ∈ bagKeys [("url", "http://x")]
      ∨ "color" ∈ ["size_dimensions", "weight", "color", "material", "pattern", "size",
                   "colour", "error"] :=
  c10_key_vocabulary (fun _ => FetchResult.ok ⟨"red shirt", []⟩) none [("url", "http://x")]
    "color" (by decide)
